import Mathlib

/-!
Verification of the image-customization controller's `imagehandler` subsystem
(virtual filesystem of customized boot images).

The Go source is embedded shallowly:

* Go maps (`map[string]T`) become association lists with Go's lookup,
  replace-on-insert and delete semantics (`mapLookup`, `mapInsert`, `mapErase`).
* Go pointers to `baseFileData` (mutated by `Size`/`CheckSum` memoization) become
  explicit state passing: each operation returns the updated record, and
  `ServeImage` writes the updated base file back into the architecture map,
  mirroring the in-place pointer mutation.
* The filesystem environment (`os.Stat`, reading a file's bytes) is a `World`
  record of functions, so that "the file changed on disk" is modelled by calling
  the same code against a different `World`.
* `uuid.NewRandom` becomes a generator function `gen : Nat → Except GoError String`
  together with a draw counter threaded through `ServeImage`; fallible randomness
  is kept (the Go code checks the error).
* `url.Parse` on the strings `"/" ++ name` built here is modelled as failing
  on ASCII control characters (one of Go's failure modes) and as serializing an
  absolute-path reference resolved against the path-less base URL by string
  append. Go additionally fails on invalid percent escapes and percent-escapes
  reserved characters when serializing; the theorems that characterize the
  shape of the returned URL therefore quantify only over `urlVerbatimKey`
  names — ASCII alphanumerics and the characters left alone by Go's path
  encoder, with no `%`, `?`, `#` or `/` and not `.` or `..` — on which Go's
  parse provably succeeds, no query/fragment split, authority form or
  dot-segment removal arises, and the serialized path is the raw string, so
  the model and the program agree there. Claims conditioned only on two calls
  returning the same URL are insensitive to the serialization.
* Errors are a small inductive `GoError`; the exported error type
  `InvalidBaseImageError` with its `Unwrap` method is one constructor.
* SHA-256 itself is external (`crypto/sha256`); the digest function is a
  parameter `digest : List Nat → List Nat`, while `hex.EncodeToString` is
  implemented concretely (`hexEncode`).
-/

/-- Go map lookup on an association list: first binding wins (our insert and
erase keep at most one binding per key, matching Go map semantics). -/
def mapLookup {α : Type} : List (String × α) → String → Option α
  | [], _ => none
  | p :: t, k => if p.1 = k then some p.2 else mapLookup t k

/-- Go map delete: remove every binding of the key. -/
def mapErase {α : Type} : List (String × α) → String → List (String × α)
  | [], _ => []
  | p :: t, k => if p.1 = k then mapErase t k else p :: mapErase t k

/-- Go map assignment `m[k] = v`: replace any existing binding. -/
def mapInsert {α : Type} (m : List (String × α)) (k : String) (v : α) : List (String × α) :=
  (k, v) :: mapErase m k

/-- Errors, as used by the imagehandler package. `InvalidBaseImageError` is the
exported wrapper type with cause (from `imagehandler`); `simple` stands for any
other Go error value, identified by its message. -/
inductive GoError : Type where
  | simple (msg : String) : GoError
  | InvalidBaseImageError (cause : GoError) : GoError
deriving DecidableEq, Repr

/-- Method `func (ie InvalidBaseImageError) Unwrap() error` — only the wrapper type has
an `Unwrap` method; other errors do not unwrap. -/
def GoError.Unwrap : GoError → Option GoError
  | .InvalidBaseImageError cause => some cause
  | .simple _ => none

/-- The durable-storage environment: `stat` is `os.Stat(name).Size()`, `readAll`
is opening the file and reading its full content (as bytes). -/
structure World : Type where
  stat : String → Except GoError Int
  readAll : String → Except GoError (List Nat)

/-- Record `baseFileData` from the base-file layer: a path plus the two memoization
fields, zero-valued (`0` / `""`) until first computed. -/
structure baseFileData : Type where
  filename : String
  size : Int
  checkSum : String
deriving DecidableEq, Repr

/-- Constructors `newBaseIso` / `newBaseInitramfs` both build a `baseFileData` with only the
filename set (the two wrapper types differ only in `InsertIgnition`, which is
outside this model). -/
def newBaseFileData (filename : String) : baseFileData :=
  { filename := filename, size := 0, checkSum := "" }

/-- Method `func (bf *baseFileData) Size() (int64, error)`: stat on `size == 0`,
memoize the statted size, otherwise return the cached field. -/
def baseFileData.Size (bf : baseFileData) (w : World) : Except GoError (Int × baseFileData) :=
  if bf.size = 0 then
    match w.stat bf.filename with
    | .error e => .error e
    | .ok sz => .ok (sz, { bf with size := sz })
  else
    .ok (bf.size, bf)

/-- One hex digit, lower case, as produced by `hex.EncodeToString`. -/
def hexDigit (n : Nat) : Char :=
  if n < 10 then Char.ofNat (48 + n) else Char.ofNat (87 + n)

/-- Function `hex.EncodeToString`: two lower-case hex digits per byte. -/
def hexEncode (bs : List Nat) : String :=
  String.mk (bs.flatMap (fun b => [hexDigit (b / 16 % 16), hexDigit (b % 16)]))

/-- Method `func (bf *baseFileData) CheckSum() (string, error)`: on `checkSum == ""`,
read the file, hex-encode the SHA-256 digest of its content and memoize;
otherwise return the cached field. `digest` abstracts `sha256`. -/
def baseFileData.CheckSum (digest : List Nat → List Nat) (bf : baseFileData) (w : World) :
    Except GoError (String × baseFileData) :=
  if bf.checkSum = "" then
    match w.readAll bf.filename with
    | .error e => .error e
    | .ok content =>
        let cs := hexEncode (digest content)
        .ok (cs, { bf with checkSum := cs })
  else
    .ok (bf.checkSum, bf)

/-- Record `imageFile`: one derived artifact (the deferred `imageReader` is opened at
first byte-read, outside this model). -/
structure imageFile : Type where
  name : String
  arch : String
  size : Int
  ignitionContent : List Nat
  initramfs : Bool
deriving DecidableEq, Repr

/-- Record `imageFileSystem`: the virtual filesystem state. `baseURL` is the serialized
base URL (scheme and host, no path), as handed to `NewImageHandler`. -/
structure imageFileSystem : Type where
  isoFiles : List (String × baseFileData)
  initramfsFiles : List (String × baseFileData)
  baseURL : String
  keys : List (String × String)
  images : List (String × imageFile)
deriving DecidableEq, Repr

/-- Method `func (f *imageFileSystem) getBaseImage(arch string, initramfs bool)`:
default the empty architecture to `"host"`, then an exact map lookup in the
format's map. -/
def getBaseImage (f : imageFileSystem) (arch : String) (initramfs : Bool) :
    Option baseFileData :=
  let arch := if arch = "" then "host" else arch
  if initramfs then mapLookup f.initramfsFiles arch else mapLookup f.isoFiles arch

/-- Write an updated `baseFileData` back to the slot `getBaseImage` read it
from: this is the in-place mutation performed through the Go pointer when
`Size` memoizes. -/
def setBaseImage (f : imageFileSystem) (arch : String) (initramfs : Bool)
    (bf : baseFileData) : imageFileSystem :=
  let arch := if arch = "" then "host" else arch
  if initramfs then { f with initramfsFiles := mapInsert f.initramfsFiles arch bf }
  else { f with isoFiles := mapInsert f.isoFiles arch bf }

/-- Method `func (f *imageFileSystem) getNameForKey(key string)`: reuse the registered
image's name; otherwise draw a fresh random UUID (which can fail). The second
component is the updated draw counter. -/
def getNameForKey (gen : Nat → Except GoError String) (f : imageFileSystem) (ctr : Nat)
    (key : String) : Except GoError String × Nat :=
  match mapLookup f.images key with
  | some img => (.ok img.name, ctr)
  | none => (gen ctr, ctr + 1)

/-- Go's `net/url` control-byte check (`strings.ContainsCtlByte`): a byte below
space or DEL anywhere in the URL makes `url.Parse` fail. UTF-8 continuation
bytes are all at least 0x80, so checking the decoded characters is equivalent. -/
def containsCtl (s : String) : Bool :=
  s.data.any (fun c => c.toNat < 32 || c.toNat == 127)

/-- Behaviour of `url.Parse` on the absolute-path references built by
`ServeImage`: fails on control characters, otherwise yields the path. This
models one of Go's two failure modes; Go also fails on invalid percent escapes
(e.g. `/100%zz`), which no `urlVerbatimKey` name can contain — theorems about
the URL's shape are stated over that domain. -/
def urlParse (s : String) : Except GoError String :=
  if containsCtl s then .error (.simple "net/url: invalid control character in URL")
  else .ok s

/-- Behaviour of `f.baseURL.ResolveReference(p).String()` for a path-less base
URL and an absolute-path reference: the base followed by the path. Verbatim
append is exact when the path consists of `pathVerbatimChar` characters; Go
otherwise percent-escapes the serialized path (path `/a b` serializes as
`/a%20b`), which this model does not reproduce — theorems about the URL's
shape are stated over `urlVerbatimKey` names only. -/
def resolveReference (base : String) (p : String) : String :=
  base ++ p

/-- Characters Go's `net/url` provably passes through a path verbatim: ASCII
alphanumerics, the unreserved marks `-._~`, and the reserved characters
`$&+,:;=@` that `shouldEscape` leaves unescaped in path mode. The set excludes
`%` (escape syntax), `?` and `#` (query/fragment delimiters), `/` (path
segmentation) and every character the path encoder escapes. -/
def pathVerbatimChar (c : Char) : Bool :=
  decide (97 ≤ c.toNat ∧ c.toNat ≤ 122) ||
  decide (65 ≤ c.toNat ∧ c.toNat ≤ 90) ||
  decide (48 ≤ c.toNat ∧ c.toNat ≤ 57) ||
  decide (c ∈ (['-', '_', '.', '~', '$', '&', '+', ',', ':', ';', '=', '@'] : List Char))

/-- Names on which Go's parse-and-serialize pipeline is the identity: every
character verbatim, and the name is not a dot segment (`.` and `..` would be
removed by `ResolveReference`'s path resolution). UUID strings and the
controller's build keys (namespace-name-uid-arch.format) lie in this set. -/
def urlVerbatimKey (s : String) : Bool :=
  s.data.all pathVerbatimChar && s != "." && s != ".."

/-- Method `func (f *imageFileSystem) ServeImage(key, arch string, ignitionContent
[]byte, initramfs, static bool) (string, error)`. The state (filesystem and
UUID draw counter) is returned alongside the result; error returns carry the
state reached so far (only base-file memoization can have happened). -/
def ServeImage (w : World) (gen : Nat → Except GoError String) (f : imageFileSystem)
    (ctr : Nat) (key arch : String) (ignitionContent : List Nat)
    (initramfs static : Bool) : Except GoError String × imageFileSystem × Nat :=
  match getBaseImage f arch initramfs with
  | none => (.error (.InvalidBaseImageError (.simple "not found")), f, ctr)
  | some baseImage =>
    match baseImage.Size w with
    | .error e => (.error (.InvalidBaseImageError e), f, ctr)
    | .ok (size, baseImage') =>
      let f := setBaseImage f arch initramfs baseImage'
      let nameCtr := if static then (Except.ok key, ctr) else getNameForKey gen f ctr key
      match nameCtr.1 with
      | .error e => (.error e, f, nameCtr.2)
      | .ok name =>
        match urlParse ("/" ++ name) with
        | .error e => (.error e, f, nameCtr.2)
        | .ok p =>
          let f :=
            match mapLookup f.images key with
            | some _ => f
            | none =>
              { f with keys := mapInsert f.keys name key,
                       images := mapInsert f.images key
                         { name := name, arch := arch, size := size,
                           ignitionContent := ignitionContent, initramfs := initramfs } }
          (.ok (resolveReference f.baseURL p), f, nameCtr.2)

/-- Method `func (f *imageFileSystem) imageFileByName(name string)`: name → key → image. -/
def imageFileByName (f : imageFileSystem) (name : String) : Option imageFile :=
  match mapLookup f.keys name with
  | some key => mapLookup f.images key
  | none => none

/-- Method `func (f *imageFileSystem) RemoveImage(key string)`: drop both directions of
the mapping if the key is registered. -/
def RemoveImage (f : imageFileSystem) (key : String) : imageFileSystem :=
  match mapLookup f.images key with
  | some img => { f with keys := mapErase f.keys img.name, images := mapErase f.images key }
  | none => f

/-- Test fixture: a world in which every stat succeeds with size 12345 and
every file reads as three bytes. -/
def wTest : World :=
  { stat := fun _ => .ok 12345, readAll := fun _ => .ok [1, 2, 3] }

/-- Test fixture: a deterministic, injective UUID source. -/
def genTest : Nat → Except GoError String :=
  fun n => .ok ("uuid-" ++ toString n)

/-- Test fixture: a handler with host ISO and initramfs bases, as in the
package's tests. -/
def fsTest : imageFileSystem :=
  { isoFiles := [("host", newBaseFileData "ipa.iso")]
    initramfsFiles := [("host", newBaseFileData "ipa.initramfs")]
    baseURL := "http://base.test:1234"
    keys := []
    images := [] }

/-- Modelled from the spec: the current repository's base-image resolution with
host-architecture fallback. The function bodies implementing it (the
`loadOSImage`-era `getBaseImage` and `HasImagesForArchitecture` exercised by
the package tests) are not among the sources embedded above; per the spec,
"If a requested architecture equals the process's own host architecture, and no
architecture-specific file exists for it, resolution falls back to the
host entry". `hostArch` is the serving process's own architecture. -/
def getBaseImageHostFallback (hostArch : String) (f : imageFileSystem) (arch : String)
    (initramfs : Bool) : Option baseFileData :=
  let arch' := if arch = "" then "host" else arch
  match (if initramfs then mapLookup f.initramfsFiles arch' else mapLookup f.isoFiles arch') with
  | some bf => some bf
  | none =>
    if arch' = hostArch then
      (if initramfs then mapLookup f.initramfsFiles "host" else mapLookup f.isoFiles "host")
    else none

/-- Modelled from the spec: `HasImages(architecture)` is "true if at least one
of image and ramdisk is present for that architecture (applying the
host-fallback rule above)"; the corresponding implementation
(`HasImagesForArchitecture`) is not among the sources embedded above. -/
def HasImagesForArchitecture (hostArch : String) (f : imageFileSystem) (arch : String) : Bool :=
  (getBaseImageHostFallback hostArch f arch false).isSome ||
    (getBaseImageHostFallback hostArch f arch true).isSome

/-- Write-back counterpart of `getBaseImageHostFallback`: the memoized base file
goes to the slot the fallback resolution read it from. -/
def setBaseImageHostFallback (hostArch : String) (f : imageFileSystem) (arch : String)
    (initramfs : Bool) (bf : baseFileData) : imageFileSystem :=
  let arch' := if arch = "" then "host" else arch
  let direct := if initramfs then mapLookup f.initramfsFiles arch' else mapLookup f.isoFiles arch'
  let target := if direct.isSome then arch' else if arch' = hostArch then "host" else arch'
  if initramfs then { f with initramfsFiles := mapInsert f.initramfsFiles target bf }
  else { f with isoFiles := mapInsert f.isoFiles target bf }

/-- Modelled from the spec: `ServeImage` of the current repository, identical to
`ServeImage` above except that base resolution applies the host-architecture
fallback rule. -/
def ServeImageHostFallback (hostArch : String) (w : World)
    (gen : Nat → Except GoError String) (f : imageFileSystem) (ctr : Nat)
    (key arch : String) (ignitionContent : List Nat) (initramfs static : Bool) :
    Except GoError String × imageFileSystem × Nat :=
  match getBaseImageHostFallback hostArch f arch initramfs with
  | none => (.error (.InvalidBaseImageError (.simple "not found")), f, ctr)
  | some baseImage =>
    match baseImage.Size w with
    | .error e => (.error (.InvalidBaseImageError e), f, ctr)
    | .ok (size, baseImage') =>
      let f := setBaseImageHostFallback hostArch f arch initramfs baseImage'
      let nameCtr := if static then (Except.ok key, ctr) else getNameForKey gen f ctr key
      match nameCtr.1 with
      | .error e => (.error e, f, nameCtr.2)
      | .ok name =>
        match urlParse ("/" ++ name) with
        | .error e => (.error e, f, nameCtr.2)
        | .ok p =>
          let f :=
            match mapLookup f.images key with
            | some _ => f
            | none =>
              { f with keys := mapInsert f.keys name key,
                       images := mapInsert f.images key
                         { name := name, arch := arch, size := size,
                           ignitionContent := ignitionContent, initramfs := initramfs } }
          (.ok (resolveReference f.baseURL p), f, nameCtr.2)

/-- Bidirectional consistency of the two cache maps: every registered image's
name points back to its key, and every name binding points to a registered
image carrying that name. -/
def ConsistentMaps (f : imageFileSystem) : Prop :=
  (∀ k img, mapLookup f.images k = some img → mapLookup f.keys img.name = some k) ∧
  (∀ n k, mapLookup f.keys n = some k →
    ∃ img, mapLookup f.images k = some img ∧ img.name = n)

/-- The virtual name a `ServeImage` call would register its key under
(`none` when the UUID draw fails; for an already-registered key in ephemeral
mode, the reused name). -/
def newName (gen : Nat → Except GoError String) (f : imageFileSystem) (ctr : Nat)
    (key : String) (static : Bool) : Option String :=
  if static then some key
  else
    match mapLookup f.images key with
    | some img => some img.name
    | none => (gen ctr).toOption

/-- States reachable from a freshly constructed `imageFileSystem` (empty caches,
draw counter 0) by any sequence of `ServeImage` and `RemoveImage` calls. -/
inductive Reachable (w : World) (gen : Nat → Except GoError String) :
    imageFileSystem → Nat → Prop where
  | init (isoFiles initramfsFiles : List (String × baseFileData)) (baseURL : String) :
      Reachable w gen
        { isoFiles := isoFiles, initramfsFiles := initramfsFiles, baseURL := baseURL,
          keys := [], images := [] } 0
  | serve {f : imageFileSystem} {ctr : Nat} (key arch : String) (ign : List Nat)
      (inf st : Bool) {res : Except GoError String} {f' : imageFileSystem} {ctr' : Nat}
      (hr : Reachable w gen f ctr)
      (hs : ServeImage w gen f ctr key arch ign inf st = (res, f', ctr')) :
      Reachable w gen f' ctr'
  | remove {f : imageFileSystem} {ctr : Nat} (key : String)
      (hr : Reachable w gen f ctr) :
      Reachable w gen (RemoveImage f key) ctr

/-- States reachable as in `Reachable`, but along collision-free histories: a
`ServeImage` call that would register its key (the key is not yet in the images
map) must use a virtual name not already bound in the keys map. -/
inductive ReachableNC (w : World) (gen : Nat → Except GoError String) :
    imageFileSystem → Nat → Prop where
  | init (isoFiles initramfsFiles : List (String × baseFileData)) (baseURL : String) :
      ReachableNC w gen
        { isoFiles := isoFiles, initramfsFiles := initramfsFiles, baseURL := baseURL,
          keys := [], images := [] } 0
  | serve {f : imageFileSystem} {ctr : Nat} (key arch : String) (ign : List Nat)
      (inf st : Bool) {res : Except GoError String} {f' : imageFileSystem} {ctr' : Nat}
      (hr : ReachableNC w gen f ctr)
      (hs : ServeImage w gen f ctr key arch ign inf st = (res, f', ctr'))
      (hnc : mapLookup f.images key = none →
        ∀ n, newName gen f ctr key st = some n → mapLookup f.keys n = none) :
      ReachableNC w gen f' ctr'
  | remove {f : imageFileSystem} {ctr : Nat} (key : String)
      (hr : ReachableNC w gen f ctr) :
      ReachableNC w gen (RemoveImage f key) ctr

/-- All names already registered in ephemeral mode were minted by `gen` at an
index below the current draw counter (holds along ephemeral-only histories). -/
def NamesMinted (gen : Nat → Except GoError String) (f : imageFileSystem) (ctr : Nat) : Prop :=
  ∀ k img, mapLookup f.images k = some img → ∃ i, i < ctr ∧ gen i = .ok img.name

/-- The UUID source never returns the same name at two distinct draws
(collision-freedom of random 128-bit identifiers). -/
def GenInjective (gen : Nat → Except GoError String) : Prop :=
  ∀ i j s, gen i = .ok s → gen j = .ok s → i = j

/-- Test fixture: a world in which every stat reports size 0 (a zero-size base
file). -/
def wZero : World :=
  { stat := fun _ => .ok 0, readAll := fun _ => .ok [] }

/-- Test fixture: a world in which every stat reports size 5 (the same file
after its content changed on disk). -/
def wFive : World :=
  { stat := fun _ => .ok 5, readAll := fun _ => .ok [7] }

/-- Test fixture: a stand-in digest function with 32-byte output. -/
def digestTest : List Nat → List Nat :=
  fun _ => List.replicate 32 171

/-- The state after ephemerally serving key `k1` on the test fixture (the key
gets the minted name `uuid-0`). -/
def fsAfterK1 : imageFileSystem :=
  (ServeImage wTest genTest fsTest 0 "k1" "" [1] false false).2.1

/-- The state after additionally serving the static key `uuid-0` — a static key
colliding with the already-registered ephemeral name. -/
def fsCollided : imageFileSystem :=
  (ServeImage wTest genTest fsAfterK1 1 "uuid-0" "" [] false true).2.1

/-- Test fixture: an injective, deterministic UUID source drawing names of
strictly increasing length. -/
def witGen : Nat → Except GoError String :=
  fun n => .ok (String.mk (List.replicate n 'a'))

/-- The state after ephemerally serving key `k1` with the injective source
(the key gets the length-0 name). -/
def fsWitA : imageFileSystem :=
  (ServeImage wTest witGen fsTest 0 "k1" "" [] false false).2.1

/-- The state after removing `k1` from `fsWitA` and serving it again (the key
gets the length-1 name). -/
def fsWitB : imageFileSystem :=
  (ServeImage wTest witGen (RemoveImage fsWitA "k1") 1 "k1" "" [] false false).2.1

/-! Helper lemmas about the map model, the memoized base files, and `ServeImage`. -/

theorem mapLookup_erase {α : Type} (m : List (String × α)) (k k' : String) :
    mapLookup (mapErase m k) k' = if k' = k then none else mapLookup m k' := by
  induction m with
  | nil => by_cases h : k' = k <;> simp [mapErase, mapLookup, h]
  | cons p t ih =>
    by_cases h1 : p.1 = k <;> by_cases h2 : k' = k
    · simp only [mapErase, if_pos h1, ih, if_pos h2]
    · have hp : ¬ p.1 = k' := by rw [h1]; intro hc; exact h2 hc.symm
      simp only [mapErase, if_pos h1, ih, if_neg h2, mapLookup, if_neg hp]
    · have hp : ¬ p.1 = k' := by intro hc; rw [h2] at hc; exact h1 hc
      simp only [mapErase, if_neg h1, mapLookup, if_neg hp, ih, if_pos h2]
    · simp only [mapErase, if_neg h1, mapLookup, ih, if_neg h2]

theorem mapLookup_insert {α : Type} (m : List (String × α)) (k k' : String) (v : α) :
    mapLookup (mapInsert m k v) k' = if k' = k then some v else mapLookup m k' := by
  by_cases h : k' = k
  · subst h
    simp [mapInsert, mapLookup]
  · have hk : ¬ k = k' := fun hc => h hc.symm
    simp [mapInsert, mapLookup, hk, mapLookup_erase, h]

theorem setBaseImage_keys (f : imageFileSystem) (arch : String) (inf : Bool)
    (bf : baseFileData) : (setBaseImage f arch inf bf).keys = f.keys := by
  unfold setBaseImage
  by_cases h : inf <;> simp [h]

theorem setBaseImage_images (f : imageFileSystem) (arch : String) (inf : Bool)
    (bf : baseFileData) : (setBaseImage f arch inf bf).images = f.images := by
  unfold setBaseImage
  by_cases h : inf <;> simp [h]

theorem setBaseImage_baseURL (f : imageFileSystem) (arch : String) (inf : Bool)
    (bf : baseFileData) : (setBaseImage f arch inf bf).baseURL = f.baseURL := by
  unfold setBaseImage
  by_cases h : inf <;> simp [h]

theorem getBaseImage_setBaseImage (f : imageFileSystem) (arch : String) (inf : Bool)
    (bf : baseFileData) : getBaseImage (setBaseImage f arch inf bf) arch inf = some bf := by
  unfold getBaseImage setBaseImage
  by_cases h : inf <;> simp [h, mapLookup_insert]

theorem Size_idem (bf bf' : baseFileData) (w : World) (v : Int)
    (h : bf.Size w = .ok (v, bf')) : bf'.Size w = .ok (v, bf') := by
  obtain ⟨fn, sz, cs⟩ := bf
  unfold baseFileData.Size at h ⊢
  by_cases h0 : sz = 0
  · simp only [h0, if_pos rfl] at h
    cases hs : w.stat fn with
    | error e => rw [hs] at h; cases h
    | ok n =>
      rw [hs] at h
      cases h
      by_cases hn : v = 0
      · simp [hn, hs]
      · simp [hn]
  · simp only [h0, if_neg h0] at h
    cases h
    simp [h0]

theorem Size_memoized (bf bf' : baseFileData) (w w2 : World) (v : Int)
    (h : bf.Size w = .ok (v, bf')) (hv : v ≠ 0) : bf'.Size w2 = .ok (v, bf') := by
  obtain ⟨fn, sz, cs⟩ := bf
  unfold baseFileData.Size at h ⊢
  by_cases h0 : sz = 0
  · simp only [h0, if_pos rfl] at h
    cases hs : w.stat fn with
    | error e => rw [hs] at h; cases h
    | ok n =>
      rw [hs] at h
      cases h
      simp [hv]
  · simp only [h0, if_neg h0] at h
    cases h
    simp [h0]

theorem serve_eph_existing (w : World) (gen : Nat → Except GoError String)
    (f : imageFileSystem) (ctr : Nat) (key arch : String) (ign : List Nat)
    (inf : Bool) (img : imageFile) (bf bf1 : baseFileData) (v : Int)
    (hk : mapLookup f.images key = some img)
    (hb : getBaseImage f arch inf = some bf)
    (hs : bf.Size w = .ok (v, bf1))
    (hctl : containsCtl ("/" ++ img.name) = false) :
    ServeImage w gen f ctr key arch ign inf false =
      (.ok (f.baseURL ++ "/" ++ img.name), setBaseImage f arch inf bf1, ctr) := by
  unfold ServeImage
  rw [hb]
  simp only [hs, getNameForKey, setBaseImage_images, hk, Bool.false_eq_true, if_false,
             urlParse, hctl, resolveReference, setBaseImage_baseURL, String.append_assoc]

theorem getBaseImage_fields (x : imageFileSystem) (b : String) (ks : List (String × String))
    (ims : List (String × imageFile)) (arch : String) (inf : Bool) :
    getBaseImage { isoFiles := x.isoFiles, initramfsFiles := x.initramfsFiles,
                   baseURL := b, keys := ks, images := ims } arch inf =
      getBaseImage x arch inf := rfl

theorem serve_ok_inv {w : World} {gen : Nat → Except GoError String}
    {f : imageFileSystem} {ctr : Nat} {key arch : String} {ign : List Nat}
    {inf st : Bool} {u : String} {f' : imageFileSystem} {ctr' : Nat}
    (h : ServeImage w gen f ctr key arch ign inf st = (.ok u, f', ctr')) :
    ∃ bf v bf1 name,
      getBaseImage f arch inf = some bf ∧
      bf.Size w = .ok (v, bf1) ∧
      bf1.Size w = .ok (v, bf1) ∧
      containsCtl ("/" ++ name) = false ∧
      u = f.baseURL ++ "/" ++ name ∧
      f'.baseURL = f.baseURL ∧
      getBaseImage f' arch inf = some bf1 ∧
      (st = true → name = key ∧ ctr' = ctr) ∧
      (st = false → ∀ img, mapLookup f.images key = some img →
        name = img.name ∧ ctr' = ctr) ∧
      (st = false → mapLookup f.images key = none →
        gen ctr = .ok name ∧ ctr' = ctr + 1) ∧
      (∀ img, mapLookup f.images key = some img →
        f'.keys = f.keys ∧ f'.images = f.images) ∧
      (mapLookup f.images key = none →
        f'.keys = mapInsert f.keys name key ∧
        f'.images = mapInsert f.images key ⟨name, arch, v, ign, inf⟩) := by
  unfold ServeImage at h
  cases hb : getBaseImage f arch inf with
  | none => rw [hb] at h; simp at h
  | some bf =>
    rw [hb] at h
    cases hsz : bf.Size w with
    | error e => simp [hsz] at h
    | ok p =>
      obtain ⟨v, bf1⟩ := p
      simp only [hsz] at h
      cases st with
      | true =>
        simp only [eq_self_iff_true, if_true] at h
        cases hctl : containsCtl ("/" ++ key) with
        | true => simp [urlParse, hctl] at h
        | false =>
          simp only [urlParse, hctl, Bool.false_eq_true, if_false] at h
          cases hk : mapLookup f.images key with
          | some img =>
            simp only [setBaseImage_images, hk] at h
            simp only [Prod.mk.injEq, Except.ok.injEq] at h
            obtain ⟨hu, hf, hc⟩ := h
            refine ⟨bf, v, bf1, key, rfl, hsz, Size_idem _ _ _ _ hsz, hctl, ?_, ?_, ?_,
              ?_, ?_, ?_, ?_, ?_⟩
            · rw [← hu]; simp only [resolveReference, setBaseImage_baseURL, String.append_assoc]
            · rw [← hf, setBaseImage_baseURL]
            · rw [← hf, getBaseImage_setBaseImage]
            · exact fun _ => ⟨rfl, hc.symm⟩
            · intro hst; cases hst
            · intro hst; cases hst
            · exact fun img0 _ =>
                ⟨by rw [← hf, setBaseImage_keys], by rw [← hf, setBaseImage_images]⟩
            · intro hn; cases hn
          | none =>
            simp only [setBaseImage_images, hk] at h
            simp only [Prod.mk.injEq, Except.ok.injEq] at h
            obtain ⟨hu, hf, hc⟩ := h
            refine ⟨bf, v, bf1, key, rfl, hsz, Size_idem _ _ _ _ hsz, hctl, ?_, ?_, ?_,
              ?_, ?_, ?_, ?_, ?_⟩
            · rw [← hu]; simp only [resolveReference, setBaseImage_baseURL, String.append_assoc]
            · rw [← hf]; exact setBaseImage_baseURL f arch inf bf1
            · rw [← hf, getBaseImage_fields, getBaseImage_setBaseImage]
            · exact fun _ => ⟨rfl, hc.symm⟩
            · intro hst; cases hst
            · intro hst; cases hst
            · intro img0 hi; cases hi
            · intro _
              refine ⟨?_, ?_⟩
              · rw [← hf]; simp only [setBaseImage_keys]
              · rw [← hf]
      | false =>
        simp only [Bool.false_eq_true, if_false] at h
        cases hk : mapLookup f.images key with
        | some img =>
          simp only [getNameForKey, setBaseImage_images, hk] at h
          cases hctl : containsCtl ("/" ++ img.name) with
          | true => simp [urlParse, hctl] at h
          | false =>
            simp only [urlParse, hctl, Bool.false_eq_true, if_false] at h
            simp only [Prod.mk.injEq, Except.ok.injEq] at h
            obtain ⟨hu, hf, hc⟩ := h
            refine ⟨bf, v, bf1, img.name, rfl, hsz, Size_idem _ _ _ _ hsz, hctl, ?_, ?_, ?_,
              ?_, ?_, ?_, ?_, ?_⟩
            · rw [← hu]; simp only [resolveReference, setBaseImage_baseURL, String.append_assoc]
            · rw [← hf, setBaseImage_baseURL]
            · rw [← hf, getBaseImage_setBaseImage]
            · intro hst; cases hst
            · intro _ img0 hi
              cases hi
              exact ⟨rfl, hc.symm⟩
            · intro _ hn; cases hn
            · exact fun img0 _ =>
                ⟨by rw [← hf, setBaseImage_keys], by rw [← hf, setBaseImage_images]⟩
            · intro hn; cases hn
        | none =>
          simp only [getNameForKey, setBaseImage_images, hk] at h
          cases hgen : gen ctr with
          | error e => simp [hgen] at h
          | ok name =>
            simp only [hgen] at h
            cases hctl : containsCtl ("/" ++ name) with
            | true => simp [urlParse, hctl] at h
            | false =>
              simp only [urlParse, hctl, Bool.false_eq_true, if_false] at h
              simp only [Prod.mk.injEq, Except.ok.injEq] at h
              obtain ⟨hu, hf, hc⟩ := h
              refine ⟨bf, v, bf1, name, rfl, hsz, Size_idem _ _ _ _ hsz, hctl, ?_, ?_, ?_,
                ?_, ?_, ?_, ?_, ?_⟩
              · rw [← hu]; simp only [resolveReference, setBaseImage_baseURL, String.append_assoc]
              · rw [← hf]; exact setBaseImage_baseURL f arch inf bf1
              · rw [← hf, getBaseImage_fields, getBaseImage_setBaseImage]
              · intro hst; cases hst
              · intro _ img0 hi; cases hi
              · exact fun _ _ => ⟨rfl, hc.symm⟩
              · intro img0 hi; cases hi
              · intro _
                refine ⟨?_, ?_⟩
                · rw [← hf]; simp only [setBaseImage_keys]
                · rw [← hf]

theorem string_append_cancel {s a b : String} (h : s ++ a = s ++ b) : a = b := by
  have hd : s.data ++ a.data = s.data ++ b.data := by
    rw [← String.data_append, ← String.data_append, h]
  exact String.ext (List.append_cancel_left hd)

theorem containsCtl_slash (s : String) : containsCtl ("/" ++ s) = containsCtl s := by
  have hd : ("/" ++ s).data = '/' :: s.data := by rw [String.data_append]; rfl
  simp [containsCtl, hd]

theorem urlVerbatimKey_not_ctl {s : String} (h : urlVerbatimKey s = true) :
    containsCtl s = false := by
  unfold urlVerbatimKey at h
  simp only [Bool.and_eq_true, List.all_eq_true] at h
  obtain ⟨⟨hall, -⟩, -⟩ := h
  unfold containsCtl
  rw [List.any_eq_false]
  intro c hc
  have hv := hall c hc
  unfold pathVerbatimChar at hv
  simp only [Bool.or_eq_true, decide_eq_true_eq] at hv
  simp only [Bool.or_eq_true, decide_eq_true_eq, beq_iff_eq, not_or]
  rcases hv with ((⟨h1, h2⟩ | ⟨h1, h2⟩) | ⟨h1, h2⟩) | h1
  · exact ⟨by omega, by omega⟩
  · exact ⟨by omega, by omega⟩
  · exact ⟨by omega, by omega⟩
  · simp only [List.mem_cons, List.not_mem_nil, or_false] at h1
    rcases h1 with rfl | rfl | rfl | rfl | rfl | rfl | rfl | rfl | rfl | rfl | rfl | rfl <;>
      exact ⟨by decide, by decide⟩

theorem serve_error_inv {w : World} {gen : Nat → Except GoError String}
    {f : imageFileSystem} {ctr : Nat} {key arch : String} {ign : List Nat}
    {inf st : Bool} {e : GoError} {f' : imageFileSystem} {ctr' : Nat}
    (h : ServeImage w gen f ctr key arch ign inf st = (.error e, f', ctr')) :
    f'.keys = f.keys ∧ f'.images = f.images := by
  unfold ServeImage at h
  cases hb : getBaseImage f arch inf with
  | none =>
    rw [hb] at h
    simp only [Prod.mk.injEq] at h
    obtain ⟨-, hf, -⟩ := h
    rw [← hf]
    exact ⟨rfl, rfl⟩
  | some bf =>
    rw [hb] at h
    cases hsz : bf.Size w with
    | error e2 =>
      simp only [hsz, Prod.mk.injEq] at h
      obtain ⟨-, hf, -⟩ := h
      rw [← hf]
      exact ⟨rfl, rfl⟩
    | ok p =>
      obtain ⟨v, bf1⟩ := p
      simp only [hsz] at h
      cases st with
      | true =>
        simp only [eq_self_iff_true, if_true] at h
        cases hctl : containsCtl ("/" ++ key) with
        | true =>
          simp only [urlParse, hctl, eq_self_iff_true, if_true, Prod.mk.injEq] at h
          obtain ⟨-, hf, -⟩ := h
          rw [← hf]
          exact ⟨setBaseImage_keys f arch inf bf1, setBaseImage_images f arch inf bf1⟩
        | false =>
          simp only [urlParse, hctl, Bool.false_eq_true, if_false] at h
          cases hk : mapLookup f.images key with
          | some img => simp [setBaseImage_images, hk] at h
          | none => simp [setBaseImage_images, hk] at h
      | false =>
        simp only [Bool.false_eq_true, if_false] at h
        cases hk : mapLookup f.images key with
        | some img =>
          simp only [getNameForKey, setBaseImage_images, hk] at h
          cases hctl : containsCtl ("/" ++ img.name) with
          | true =>
            simp only [urlParse, hctl, eq_self_iff_true, if_true, Prod.mk.injEq] at h
            obtain ⟨-, hf, -⟩ := h
            rw [← hf]
            exact ⟨setBaseImage_keys f arch inf bf1, setBaseImage_images f arch inf bf1⟩
          | false => simp [urlParse, hctl] at h
        | none =>
          simp only [getNameForKey, setBaseImage_images, hk] at h
          cases hgen : gen ctr with
          | error e3 =>
            simp only [hgen, Prod.mk.injEq] at h
            obtain ⟨-, hf, -⟩ := h
            rw [← hf]
            exact ⟨setBaseImage_keys f arch inf bf1, setBaseImage_images f arch inf bf1⟩
          | ok name =>
            simp only [hgen] at h
            cases hctl : containsCtl ("/" ++ name) with
            | true =>
              simp only [urlParse, hctl, eq_self_iff_true, if_true, Prod.mk.injEq] at h
              obtain ⟨-, hf, -⟩ := h
              rw [← hf]
              exact ⟨setBaseImage_keys f arch inf bf1, setBaseImage_images f arch inf bf1⟩
            | false => simp [urlParse, hctl] at h

theorem RemoveImage_baseURL (f : imageFileSystem) (key : String) :
    (RemoveImage f key).baseURL = f.baseURL := by
  unfold RemoveImage
  cases h : mapLookup f.images key <;> simp

/-- C1: Idempotent ephemeral naming — if an ephemeral `ServeImage` call
succeeds with URL `u`, calling it again with the same key, architecture,
payload and format flag, with no intervening `RemoveImage`, also succeeds and
returns the identical URL `u`. -/
theorem serveImage_ephemeral_idempotent {w : World} {gen : Nat → Except GoError String}
    {f : imageFileSystem} {ctr : Nat} {key arch : String} {ign : List Nat} {inf : Bool}
    {u : String} {f1 : imageFileSystem} {ctr1 : Nat}
    (h1 : ServeImage w gen f ctr key arch ign inf false = (.ok u, f1, ctr1)) :
    (ServeImage w gen f1 ctr1 key arch ign inf false).1 = .ok u := by
  obtain ⟨bf, v, bf1, name, hb, hsz, hsz1, hctl, hu, hurl, hb1, -, hex, hfresh, hkeep, hreg⟩ :=
    serve_ok_inv h1
  have himg : ∃ img, mapLookup f1.images key = some img ∧ img.name = name := by
    cases hk : mapLookup f.images key with
    | some img0 =>
      obtain ⟨hn, -⟩ := hex rfl img0 hk
      obtain ⟨-, hi⟩ := hkeep img0 hk
      exact ⟨img0, by rw [hi, hk], hn.symm⟩
    | none =>
      obtain ⟨-, hi⟩ := hreg hk
      refine ⟨⟨name, arch, v, ign, inf⟩, ?_, rfl⟩
      rw [hi, mapLookup_insert]
      simp
  obtain ⟨img, hk1, hname⟩ := himg
  have hrun := serve_eph_existing w gen f1 ctr1 key arch ign inf img bf1 bf1 v hk1 hb1 hsz1
    (by rw [hname]; exact hctl)
  rw [hrun, hu, hurl, hname]

theorem serveImage_ephemeral_idempotent_witness :
    (ServeImage wTest genTest fsAfterK1 1 "k1" "" [1] false false).1 =
      .ok "http://base.test:1234/uuid-0" :=
  @serveImage_ephemeral_idempotent wTest genTest fsTest 0 "k1" "" [1] false
    "http://base.test:1234/uuid-0" fsAfterK1 1 rfl

/-- C2: Ephemeral-mode payload insensitivity — once a key has been registered
by a successful `ServeImage` call, a later ephemeral `ServeImage` with the same
key but any payload (even a different one) succeeds, returns the same URL, and
leaves the registered maps (hence the stored artifact's name, size and payload)
unchanged. -/
theorem serveImage_payload_insensitive {w : World} {gen : Nat → Except GoError String}
    {f : imageFileSystem} {ctr : Nat} {key arch : String} {ign1 ign2 : List Nat}
    {inf st : Bool} {u : String} {f1 : imageFileSystem} {ctr1 : Nat}
    (hk : mapLookup f.images key = none)
    (h1 : ServeImage w gen f ctr key arch ign1 inf st = (.ok u, f1, ctr1)) :
    ∃ f2, ServeImage w gen f1 ctr1 key arch ign2 inf false = (.ok u, f2, ctr1) ∧
      f2.keys = f1.keys ∧ f2.images = f1.images := by
  obtain ⟨bf, v, bf1, name, hb, hsz, hsz1, hctl, hu, hurl, hb1, hst, hex, hfresh, hkeep, hreg⟩ :=
    serve_ok_inv h1
  obtain ⟨-, hi⟩ := hreg hk
  have hk1 : mapLookup f1.images key = some ⟨name, arch, v, ign1, inf⟩ := by
    rw [hi, mapLookup_insert]
    simp
  have hrun := serve_eph_existing w gen f1 ctr1 key arch ign2 inf ⟨name, arch, v, ign1, inf⟩
    bf1 bf1 v hk1 hb1 hsz1 hctl
  refine ⟨setBaseImage f1 arch inf bf1, ?_, setBaseImage_keys f1 arch inf bf1,
    setBaseImage_images f1 arch inf bf1⟩
  rw [hrun, hu, hurl]

theorem serveImage_payload_insensitive_witness :
    ∃ f2, ServeImage wTest genTest fsAfterK1 1 "k1" "" [2] false false =
        (.ok "http://base.test:1234/uuid-0", f2, 1) ∧
      f2.keys = fsAfterK1.keys ∧ f2.images = fsAfterK1.images :=
  @serveImage_payload_insensitive wTest genTest fsTest 0 "k1" "" [1] [2] false false
    "http://base.test:1234/uuid-0" fsAfterK1 1 rfl rfl

theorem witGen_injective : GenInjective witGen := by
  intro i j s hi hj
  simp only [witGen, Except.ok.injEq] at hi hj
  have hl : List.replicate i 'a' = List.replicate j 'a' :=
    congrArg String.data (hi.trans hj.symm)
  have := congrArg List.length hl
  simpa using this

/-- C3: Name change after removal — serving a key, removing it, then serving it
again in ephemeral mode yields a different URL, because a fresh name is minted
by the injective UUID source (all previously registered names being earlier
draws). -/
theorem serveImage_name_changes_after_remove {w : World} {gen : Nat → Except GoError String}
    {f : imageFileSystem} {ctr : Nat} {key arch : String} {ign : List Nat} {inf : Bool}
    {url1 : String} {f1 : imageFileSystem} {ctr1 : Nat}
    {url2 : String} {f2 : imageFileSystem} {ctr2 : Nat}
    (hinj : GenInjective gen) (hmint : NamesMinted gen f ctr)
    (h1 : ServeImage w gen f ctr key arch ign inf false = (.ok url1, f1, ctr1))
    (h2 : ServeImage w gen (RemoveImage f1 key) ctr1 key arch ign inf false =
      (.ok url2, f2, ctr2)) :
    url2 ≠ url1 := by
  obtain ⟨bf, v, bf1, name1, hb, hsz, hsz1, hctl, hu1, hurl1, hb1, -, hex, hfresh, hkeep, hreg⟩ :=
    serve_ok_inv h1
  have hminted : ∃ i, i < ctr1 ∧ gen i = .ok name1 := by
    cases hk : mapLookup f.images key with
    | some img0 =>
      obtain ⟨hn, hc⟩ := hex rfl img0 hk
      obtain ⟨i, hi, hgi⟩ := hmint key img0 hk
      exact ⟨i, by rw [hc]; exact hi, by rw [hn]; exact hgi⟩
    | none =>
      obtain ⟨hg, hc⟩ := hfresh rfl hk
      exact ⟨ctr, by rw [hc]; exact Nat.lt_succ_self ctr, hg⟩
  obtain ⟨i, hilt, hgi⟩ := hminted
  have himg : ∃ img, mapLookup f1.images key = some img := by
    cases hk : mapLookup f.images key with
    | some img0 =>
      obtain ⟨-, hi2⟩ := hkeep img0 hk
      exact ⟨img0, by rw [hi2, hk]⟩
    | none =>
      obtain ⟨-, hi2⟩ := hreg hk
      exact ⟨⟨name1, arch, v, ign, inf⟩, by rw [hi2, mapLookup_insert]; simp⟩
  obtain ⟨img, hk1⟩ := himg
  have hrm : mapLookup (RemoveImage f1 key).images key = none := by
    unfold RemoveImage
    rw [hk1]
    simp [mapLookup_erase]
  obtain ⟨bf', v', bf1', name2, hb', hsz', hsz1', hctl', hu2, hurl2, hb1', -, hex', hfresh',
    hkeep', hreg'⟩ := serve_ok_inv h2
  obtain ⟨hg2, -⟩ := hfresh' rfl hrm
  intro heq
  have hbase : (RemoveImage f1 key).baseURL = f.baseURL := by
    rw [RemoveImage_baseURL, hurl1]
  rw [hu1, hu2, hbase] at heq
  rw [String.append_assoc, String.append_assoc] at heq
  have hnames : name2 = name1 := string_append_cancel (string_append_cancel heq)
  rw [hnames] at hg2
  have hieq := hinj i ctr1 name1 hgi hg2
  rw [hieq] at hilt
  exact Nat.lt_irrefl ctr1 hilt

theorem serveImage_name_changes_after_remove_witness :
    "http://base.test:1234/a" ≠ "http://base.test:1234/" :=
  @serveImage_name_changes_after_remove wTest witGen fsTest 0 "k1" "" [] false
    "http://base.test:1234/" fsWitA 1 "http://base.test:1234/a" fsWitB 2
    witGen_injective (fun _ _ h => Option.noConfusion h) rfl rfl

/-- C4 counterexample: static `ServeImage` does not succeed for every key even
when the base size is available — a key containing an ASCII control character
makes `url.Parse` fail, so the call errors instead of returning the base URL
with the key as path. -/
theorem serveImage_static_ctl_cex :
    (ServeImage wTest genTest fsTest 0 "bad\nkey" "" [] false true).1 =
      .error (.simple "net/url: invalid control character in URL") ∧
    ¬ ∃ s, (ServeImage wTest genTest fsTest 0 "bad\nkey" "" [] false true).1 = .ok s := by
  constructor
  · rfl
  · rintro ⟨s, hs⟩
    rw [show (ServeImage wTest genTest fsTest 0 "bad\nkey" "" [] false true).1 =
        .error (.simple "net/url: invalid control character in URL") from rfl] at hs
    cases hs

/-- C4 (amended): Static determinism — for every URL-verbatim key (only
characters Go's parser and path serializer pass through unchanged, and not a
dot segment), whenever the resolved base's size is available, static
`ServeImage` succeeds and returns exactly the base URL followed by `/` and the
key, whatever the payload, counter, cache contents or call history. Keys
outside this alphabet do not satisfy the claim in Go: control characters and
invalid percent escapes make `url.Parse` fail, and other characters are
percent-escaped in the serialized URL. -/
theorem serveImage_static_deterministic {w : World} {gen : Nat → Except GoError String}
    {f : imageFileSystem} {ctr : Nat} {key arch : String} {ign : List Nat} {inf : Bool}
    {bf : baseFileData} {v : Int} {bf1 : baseFileData}
    (hb : getBaseImage f arch inf = some bf)
    (hs : bf.Size w = .ok (v, bf1))
    (hkey : urlVerbatimKey key = true) :
    (ServeImage w gen f ctr key arch ign inf true).1 = .ok (f.baseURL ++ "/" ++ key) := by
  have hctl : containsCtl key = false := urlVerbatimKey_not_ctl hkey
  unfold ServeImage
  rw [hb]
  simp only [hs, eq_self_iff_true, if_true, urlParse, containsCtl_slash, hctl,
    Bool.false_eq_true, if_false]
  cases hk : mapLookup (setBaseImage f arch inf bf1).images key <;>
    simp [resolveReference, setBaseImage_baseURL, String.append_assoc]

theorem serveImage_static_deterministic_witness :
    (ServeImage wTest genTest fsAfterK1 1 "name.iso" "" [9] false true).1 =
      .ok "http://base.test:1234/name.iso" :=
  @serveImage_static_deterministic wTest genTest fsAfterK1 1 "name.iso" "" [9] false
    ⟨"ipa.iso", 12345, ""⟩ 12345 ⟨"ipa.iso", 12345, ""⟩ rfl rfl (by decide)

/-- C5 counterexample: after re-serving an already-registered key with a
different payload, the call succeeds and returns the registered URL, but the
artifact found by looking the URL's name up still carries the payload of the
first registration, not the payload passed to this call. -/
theorem serveImage_lookup_payload_cex :
    (ServeImage wTest genTest fsAfterK1 1 "k1" "" [2] false false).1 =
      .ok "http://base.test:1234/uuid-0" ∧
    imageFileByName (ServeImage wTest genTest fsAfterK1 1 "k1" "" [2] false false).2.1
      "uuid-0" = some ⟨"uuid-0", "", 12345, [1], false⟩ ∧
    ([1] : List Nat) ≠ [2] :=
  ⟨rfl, rfl, by decide⟩

/-- C5 (amended): Lookup consistency — after a successful `ServeImage` that is
ephemeral or that first registers its key (from a pre-state mapping any
existing registration of the key consistently), and whose virtual name — the
key in static mode, the registered or freshly minted name in ephemeral mode,
a UUID string in the program — is URL-verbatim, the returned URL is the base
URL followed by that name, under which `imageFileByName` finds a registered
artifact; for a registering call its size is the resolved base size and its
payload the one passed, while for a re-serving call it is the originally
registered artifact (whose payload may differ from the one passed). The
verbatim restriction is forced by Go's serializer: a static key such as
`a b` returns a URL path `/a%20b` that differs from the registered name. -/
theorem serveImage_lookup_consistent {w : World} {gen : Nat → Except GoError String}
    {f : imageFileSystem} {ctr : Nat} {key arch : String} {ign : List Nat}
    {inf st : Bool} {u : String} {f' : imageFileSystem} {ctr' : Nat}
    (hrev : ∀ img0, mapLookup f.images key = some img0 →
      mapLookup f.keys img0.name = some key)
    (hcase : st = false ∨ mapLookup f.images key = none)
    (hnm : ∀ n, newName gen f ctr key st = some n → urlVerbatimKey n = true)
    (h : ServeImage w gen f ctr key arch ign inf st = (.ok u, f', ctr')) :
    ∃ name v bf bf1 img,
      getBaseImage f arch inf = some bf ∧
      bf.Size w = .ok (v, bf1) ∧
      urlVerbatimKey name = true ∧
      u = f.baseURL ++ "/" ++ name ∧
      imageFileByName f' name = some img ∧
      (mapLookup f.images key = none →
        img.name = name ∧ img.size = v ∧ img.ignitionContent = ign) ∧
      (∀ img0, mapLookup f.images key = some img0 → img = img0) := by
  obtain ⟨bf, v, bf1, name, hb, hsz, hsz1, hctl, hu, hurl, hb1, hst, hex, hfresh, hkeep, hreg⟩ :=
    serve_ok_inv h
  cases hk : mapLookup f.images key with
  | none =>
    obtain ⟨hkk, hii⟩ := hreg hk
    have hverb : urlVerbatimKey name = true := by
      apply hnm name
      unfold newName
      cases st with
      | true =>
        obtain ⟨hn, -⟩ := hst rfl
        simp [hn]
      | false =>
        obtain ⟨hg, -⟩ := hfresh rfl hk
        simp [hk, hg, Except.toOption]
    refine ⟨name, v, bf, bf1, ⟨name, arch, v, ign, inf⟩, hb, hsz, hverb, hu, ?_, ?_, ?_⟩
    · simp [imageFileByName, hkk, hii, mapLookup_insert]
    · intro _
      exact ⟨rfl, rfl, rfl⟩
    · intro _ hi
      cases hi
  | some img0 =>
    have hstf : st = false := by
      cases hcase with
      | inl h' => exact h'
      | inr h' => rw [h'] at hk; cases hk
    obtain ⟨hn, -⟩ := hex hstf img0 hk
    obtain ⟨hkk, hii⟩ := hkeep img0 hk
    have hverb : urlVerbatimKey name = true := by
      apply hnm name
      rw [hstf]
      unfold newName
      simp [hk, hn]
    refine ⟨name, v, bf, bf1, img0, hb, hsz, hverb, hu, ?_, ?_, ?_⟩
    · simp only [imageFileByName, hkk, hn, hrev img0 hk, hii, hk]
    · intro hnone
      cases hnone
    · intro img1 hi
      cases hi
      rfl

theorem serveImage_lookup_consistent_witness :
    ∃ name v bf bf1 img,
      getBaseImage fsTest "" false = some bf ∧
      bf.Size wTest = .ok (v, bf1) ∧
      urlVerbatimKey name = true ∧
      "http://base.test:1234/uuid-0" = fsTest.baseURL ++ "/" ++ name ∧
      imageFileByName fsAfterK1 name = some img ∧
      (mapLookup fsTest.images "k1" = none →
        img.name = name ∧ img.size = v ∧ img.ignitionContent = [1]) ∧
      (∀ img0, mapLookup fsTest.images "k1" = some img0 → img = img0) :=
  @serveImage_lookup_consistent wTest genTest fsTest 0 "k1" "" [1] false false
    "http://base.test:1234/uuid-0" fsAfterK1 1
    (fun _ h => Option.noConfusion h) (Or.inl rfl)
    (fun n h => by
      rw [show newName genTest fsTest 0 "k1" false = some "uuid-0" from rfl] at h
      cases h
      decide)
    rfl

/-- C7: Typed invalid-base errors — `ServeImage` returns an
`InvalidBaseImageError` exactly when no base artifact is indexed for the
requested architecture and format or the resolved base's `Size` fails; the
wrapped cause is the `Size` failure (or the "not found" error), retrievable via
`Unwrap`, and no other failure is reported as this type (the UUID source being
an entropy reader never returns this exported type itself). -/
theorem serveImage_invalid_base_iff {w : World} {gen : Nat → Except GoError String}
    {f : imageFileSystem} {ctr : Nat} {key arch : String} {ign : List Nat}
    {inf st : Bool}
    (hgen : ∀ n c, gen n ≠ .error (.InvalidBaseImageError c)) :
    (∀ c, (ServeImage w gen f ctr key arch ign inf st).1 =
        .error (.InvalidBaseImageError c) ↔
      ((getBaseImage f arch inf = none ∧ c = .simple "not found") ∨
       (∃ bf, getBaseImage f arch inf = some bf ∧ bf.Size w = .error c))) ∧
    (getBaseImage f arch inf = none →
      (ServeImage w gen f ctr key arch ign inf st).1 =
        .error (.InvalidBaseImageError (.simple "not found"))) ∧
    (∀ bf c, getBaseImage f arch inf = some bf → bf.Size w = .error c →
      (ServeImage w gen f ctr key arch ign inf st).1 =
        .error (.InvalidBaseImageError c)) ∧
    (∀ c, GoError.Unwrap (.InvalidBaseImageError c) = some c) := by
  refine ⟨?_, ?_, ?_, fun c => rfl⟩
  · intro c
    unfold ServeImage
    cases hb : getBaseImage f arch inf with
    | none => simp [eq_comm]
    | some bf =>
      cases hsz : bf.Size w with
      | error e => simp [hsz, eq_comm]
      | ok p =>
        obtain ⟨v, bf1⟩ := p
        simp only [hsz]
        constructor
        · intro hc
          exfalso
          cases st with
          | true =>
            simp only [eq_self_iff_true, if_true] at hc
            cases hctl : containsCtl ("/" ++ key) with
            | true => simp [urlParse, hctl] at hc
            | false =>
              simp only [urlParse, hctl, Bool.false_eq_true, if_false] at hc
              cases hk : mapLookup (setBaseImage f arch inf bf1).images key <;>
                simp [hk] at hc
          | false =>
            simp only [Bool.false_eq_true, if_false] at hc
            cases hk : mapLookup f.images key with
            | some img =>
              simp only [getNameForKey, setBaseImage_images, hk] at hc
              cases hctl : containsCtl ("/" ++ img.name) with
              | true => simp [urlParse, hctl] at hc
              | false =>
                simp only [urlParse, hctl, Bool.false_eq_true, if_false] at hc
                cases hk2 : mapLookup (setBaseImage f arch inf bf1).images key <;>
                  simp [hk2] at hc
            | none =>
              simp only [getNameForKey, setBaseImage_images, hk] at hc
              cases hg : gen ctr with
              | error e2 =>
                simp only [hg, Except.error.injEq] at hc
                rw [hc] at hg
                exact hgen ctr c hg
              | ok name =>
                simp only [hg] at hc
                cases hctl : containsCtl ("/" ++ name) with
                | true => simp [urlParse, hctl] at hc
                | false =>
                  simp only [urlParse, hctl, Bool.false_eq_true, if_false] at hc
                  cases hk2 : mapLookup (setBaseImage f arch inf bf1).images key <;>
                    simp [hk2] at hc
        · rintro (⟨hn, -⟩ | ⟨bf', hbb, hss⟩)
          · cases hn
          · cases hbb
            rw [hsz] at hss
            cases hss
  · intro hb
    unfold ServeImage
    rw [hb]
  · intro bf c hb hsz
    unfold ServeImage
    rw [hb]
    simp [hsz]

theorem serveImage_invalid_base_iff_witness :
    ((ServeImage wTest genTest fsTest 0 "k" "ppc64le" [] false false).1 =
        .error (.InvalidBaseImageError (.simple "not found")) ↔
      ((getBaseImage fsTest "ppc64le" false = none ∧
          (GoError.simple "not found") = .simple "not found") ∨
       (∃ bf, getBaseImage fsTest "ppc64le" false = some bf ∧
          bf.Size wTest = .error (.simple "not found")))) ∧
    GoError.Unwrap (.InvalidBaseImageError (.simple "not found")) =
      some (.simple "not found") := by
  have h := @serveImage_invalid_base_iff wTest genTest fsTest 0 "k" "ppc64le" [] false false
    (fun n c hc => by simp [genTest] at hc)
  exact ⟨h.1 (.simple "not found"), h.2.2.2 (.simple "not found")⟩

/-- C8: Atomicity of failed Serve — whenever `ServeImage` returns an error, the
keys map and the images map are exactly what they were before the call (only
base-file size memoization can have occurred). -/
theorem serveImage_failure_atomic {w : World} {gen : Nat → Except GoError String}
    {f : imageFileSystem} {ctr : Nat} {key arch : String} {ign : List Nat}
    {inf st : Bool} {e : GoError} {f' : imageFileSystem} {ctr' : Nat}
    (h : ServeImage w gen f ctr key arch ign inf st = (.error e, f', ctr')) :
    f'.keys = f.keys ∧ f'.images = f.images :=
  serve_error_inv h

theorem serveImage_failure_atomic_witness :
    ((ServeImage wTest genTest fsTest 0 "k" "ppc64le" [] false false).2.1).keys =
      fsTest.keys ∧
    ((ServeImage wTest genTest fsTest 0 "k" "ppc64le" [] false false).2.1).images =
      fsTest.images :=
  @serveImage_failure_atomic wTest genTest fsTest 0 "k" "ppc64le" [] false false
    (.InvalidBaseImageError (.simple "not found"))
    ((ServeImage wTest genTest fsTest 0 "k" "ppc64le" [] false false).2.1) 0 rfl

theorem CheckSum_memoized (digest : List Nat → List Nat) (bf bf1 : baseFileData)
    (w w2 : World) (s : String)
    (h : bf.CheckSum digest w = .ok (s, bf1)) (hs : s ≠ "") :
    bf1.CheckSum digest w2 = .ok (s, bf1) := by
  obtain ⟨fn, sz, cs⟩ := bf
  unfold baseFileData.CheckSum at h ⊢
  by_cases h0 : cs = ""
  · simp only [h0, if_pos rfl] at h
    cases hrd : w.readAll fn with
    | error e => rw [hrd] at h; cases h
    | ok c =>
      rw [hrd] at h
      cases h
      simp [hs]
  · simp only [h0, if_neg h0] at h
    cases h
    simp [h0]

/-- C9 counterexample: a base file whose first stat reports size 0 is not
memoized — the zero value doubles as the not-yet-computed sentinel — so after
the underlying file changes, a later `Size` call touches storage again and
returns a different value even though the first call had succeeded. -/
theorem baseFile_size_zero_not_memoized_cex :
    baseFileData.Size (newBaseFileData "f") wZero = .ok (0, newBaseFileData "f") ∧
    baseFileData.Size (newBaseFileData "f") wFive = .ok (5, ⟨"f", 5, ""⟩) ∧
    (0 : Int) ≠ 5 :=
  ⟨rfl, rfl, by decide⟩

/-- C9 (amended): Size/checksum memoization — `Size` stats the file on first
call; once a call has succeeded with a nonzero size, every later call returns
the cached value without touching storage (the value 0 doubles as the
uncomputed sentinel, so a zero-size file is re-statted). `CheckSum` hashes the
full content (hex-encoded digest) on first call; once a call has returned a
nonempty checksum — always, for real SHA-256 hex output — every later call
returns the cached value without touching storage. -/
theorem baseFile_memoization (bf : baseFileData) (w w2 : World)
    (digest : List Nat → List Nat) :
    (bf.size = 0 → ∀ sz, w.stat bf.filename = .ok sz →
      bf.Size w = .ok (sz, { bf with size := sz })) ∧
    (∀ v bf1, bf.Size w = .ok (v, bf1) → v ≠ 0 → bf1.Size w2 = .ok (v, bf1)) ∧
    (bf.checkSum = "" → ∀ c, w.readAll bf.filename = .ok c →
      bf.CheckSum digest w =
        .ok (hexEncode (digest c), { bf with checkSum := hexEncode (digest c) })) ∧
    (∀ s bf1, bf.CheckSum digest w = .ok (s, bf1) → s ≠ "" →
      bf1.CheckSum digest w2 = .ok (s, bf1)) := by
  refine ⟨?_, ?_, ?_, ?_⟩
  · intro h0 sz hst
    unfold baseFileData.Size
    rw [if_pos h0, hst]
  · intro v bf1 h hv
    exact Size_memoized bf bf1 w w2 v h hv
  · intro h0 c hrd
    unfold baseFileData.CheckSum
    rw [if_pos h0, hrd]
  · intro s bf1 h hs
    exact CheckSum_memoized digest bf bf1 w w2 s h hs

theorem baseFile_memoization_witness :
    baseFileData.Size ⟨"f", 0, ""⟩ wFive = .ok (5, ⟨"f", 5, ""⟩) ∧
    baseFileData.Size ⟨"f", 5, ""⟩ wZero = .ok (5, ⟨"f", 5, ""⟩) ∧
    baseFileData.CheckSum digestTest ⟨"f", 5, "ab"⟩ wFive = .ok ("ab", ⟨"f", 5, "ab"⟩) := by
  refine ⟨(baseFile_memoization ⟨"f", 0, ""⟩ wFive wZero digestTest).1 rfl 5 rfl, ?_, ?_⟩
  · exact (baseFile_memoization ⟨"f", 0, ""⟩ wFive wZero digestTest).2.1 5 ⟨"f", 5, ""⟩
      rfl (by decide)
  · exact (baseFile_memoization ⟨"f", 5, "ab"⟩ wZero wFive digestTest).2.2.2 "ab"
      ⟨"f", 5, "ab"⟩ rfl (by decide)

theorem setBaseImageHostFallback_keys (hostArch : String) (f : imageFileSystem)
    (arch : String) (inf : Bool) (bf : baseFileData) :
    (setBaseImageHostFallback hostArch f arch inf bf).keys = f.keys := by
  unfold setBaseImageHostFallback
  by_cases h : inf <;> simp [h]

theorem setBaseImageHostFallback_images (hostArch : String) (f : imageFileSystem)
    (arch : String) (inf : Bool) (bf : baseFileData) :
    (setBaseImageHostFallback hostArch f arch inf bf).images = f.images := by
  unfold setBaseImageHostFallback
  by_cases h : inf <;> simp [h]

theorem setBaseImageHostFallback_baseURL (hostArch : String) (f : imageFileSystem)
    (arch : String) (inf : Bool) (bf : baseFileData) :
    (setBaseImageHostFallback hostArch f arch inf bf).baseURL = f.baseURL := by
  unfold setBaseImageHostFallback
  by_cases h : inf <;> simp [h]

/-- C6: Host-architecture fallback (spec-modelled) — when the requested
architecture is the process's own and has no architecture-specific base file
but a "host" base is configured for the requested format, resolution,
`HasImagesForArchitecture` and `ServeImage` all succeed through the "host"
entry; an architecture with no files and no applicable fallback has no images
and `ServeImage` for it fails with the typed invalid-base error. -/
theorem hostArchitectureFallback (hostArch arch2 : String) (f : imageFileSystem)
    (w : World) (gen : Nat → Except GoError String) (ctr : Nat)
    (key name : String) (ign : List Nat) (inf st : Bool)
    (bf : baseFileData) (v : Int) (bf1 : baseFileData)
    (hne : hostArch ≠ "")
    (hiso : mapLookup f.isoFiles hostArch = none)
    (hinit : mapLookup f.initramfsFiles hostArch = none)
    (hhost : (if inf then mapLookup f.initramfsFiles "host"
              else mapLookup f.isoFiles "host") = some bf)
    (hsz : bf.Size w = .ok (v, bf1))
    (hk : mapLookup f.images key = none)
    (hg : gen ctr = .ok name)
    (hctl : containsCtl name = false)
    (h2ne : arch2 ≠ "") (h2host : arch2 ≠ hostArch)
    (h2iso : mapLookup f.isoFiles arch2 = none)
    (h2init : mapLookup f.initramfsFiles arch2 = none) :
    getBaseImageHostFallback hostArch f hostArch inf = some bf ∧
    HasImagesForArchitecture hostArch f hostArch = true ∧
    (ServeImageHostFallback hostArch w gen f ctr key hostArch ign inf false).1 =
      .ok (f.baseURL ++ "/" ++ name) ∧
    HasImagesForArchitecture hostArch f arch2 = false ∧
    (ServeImageHostFallback hostArch w gen f ctr key arch2 ign inf st).1 =
      .error (.InvalidBaseImageError (.simple "not found")) := by
  have hres : getBaseImageHostFallback hostArch f hostArch inf = some bf := by
    unfold getBaseImageHostFallback
    cases inf with
    | true =>
      simp only [if_neg hne, if_true, eq_self_iff_true] at hhost ⊢
      rw [hinit]
      simp [hhost]
    | false =>
      simp only [Bool.false_eq_true, if_false, if_neg hne] at hhost ⊢
      rw [hiso]
      simp [hhost]
  have hres2 : ∀ b : Bool, getBaseImageHostFallback hostArch f arch2 b = none := by
    intro b
    unfold getBaseImageHostFallback
    cases b with
    | true =>
      simp only [if_neg h2ne, if_true, eq_self_iff_true]
      rw [h2init]
      simp [h2host]
    | false =>
      simp only [Bool.false_eq_true, if_false, if_neg h2ne]
      rw [h2iso]
      simp [h2host]
  refine ⟨hres, ?_, ?_, ?_, ?_⟩
  · unfold HasImagesForArchitecture
    cases inf with
    | true => rw [hres]; simp
    | false => rw [hres]; simp
  · unfold ServeImageHostFallback
    rw [hres]
    simp only [hsz, Bool.false_eq_true, if_false, getNameForKey,
      setBaseImageHostFallback_images, hk, hg, urlParse, containsCtl_slash, hctl,
      resolveReference, setBaseImageHostFallback_baseURL, String.append_assoc]
  · unfold HasImagesForArchitecture
    rw [hres2 true, hres2 false]
    rfl
  · unfold ServeImageHostFallback
    rw [hres2 inf]

theorem hostArchitectureFallback_witness :
    getBaseImageHostFallback "x86_64" fsTest "x86_64" false =
      some (newBaseFileData "ipa.iso") ∧
    HasImagesForArchitecture "x86_64" fsTest "x86_64" = true ∧
    (ServeImageHostFallback "x86_64" wTest genTest fsTest 0 "k6" "x86_64" [] false false).1 =
      .ok (fsTest.baseURL ++ "/" ++ "uuid-0") ∧
    HasImagesForArchitecture "x86_64" fsTest "ppc64le" = false ∧
    (ServeImageHostFallback "x86_64" wTest genTest fsTest 0 "k6" "ppc64le" [] false false).1 =
      .error (.InvalidBaseImageError (.simple "not found")) :=
  hostArchitectureFallback "x86_64" "ppc64le" fsTest wTest genTest 0 "k6" "uuid-0" []
    false false (newBaseFileData "ipa.iso") 12345 ⟨"ipa.iso", 12345, ""⟩
    (by decide) rfl rfl rfl rfl rfl rfl rfl (by decide) (by decide) rfl rfl

theorem consistentMaps_congr {f f' : imageFileSystem}
    (hk : f'.keys = f.keys) (hi : f'.images = f.images)
    (h : ConsistentMaps f) : ConsistentMaps f' := by
  unfold ConsistentMaps at h ⊢
  rw [hk, hi]
  exact h

theorem remove_preserves_consistent {f : imageFileSystem} {key : String}
    (h : ConsistentMaps f) : ConsistentMaps (RemoveImage f key) := by
  obtain ⟨h1, h2⟩ := h
  unfold RemoveImage
  cases hk : mapLookup f.images key with
  | none => exact ⟨h1, h2⟩
  | some img =>
    constructor
    · intro k' img' hl
      simp only [mapLookup_erase] at hl ⊢
      by_cases hkk : k' = key
      · rw [if_pos hkk] at hl; cases hl
      · rw [if_neg hkk] at hl
        have hb := h1 k' img' hl
        have hne : ¬ img'.name = img.name := by
          intro hc
          rw [hc] at hb
          have := h1 key img hk
          rw [this] at hb
          exact hkk (Option.some.injEq _ _ ▸ hb.symm ▸ rfl)
        rw [if_neg hne]
        exact hb
    · intro n k' hl
      simp only [mapLookup_erase] at hl ⊢
      by_cases hnn : n = img.name
      · rw [if_pos hnn] at hl; cases hl
      · rw [if_neg hnn] at hl
        obtain ⟨img', hi', hni'⟩ := h2 n k' hl
        refine ⟨img', ?_, hni'⟩
        have hne : ¬ k' = key := by
          intro hc
          rw [hc] at hi'
          rw [hk] at hi'
          injection hi' with hi'
          exact hnn (by rw [← hni', hi'])
        rw [if_neg hne]
        exact hi'

theorem serve_preserves_consistent {w : World} {gen : Nat → Except GoError String}
    {f : imageFileSystem} {ctr : Nat} {key arch : String} {ign : List Nat}
    {inf st : Bool} {res : Except GoError String} {f' : imageFileSystem} {ctr' : Nat}
    (hinv : ConsistentMaps f)
    (hs : ServeImage w gen f ctr key arch ign inf st = (res, f', ctr'))
    (hnc : mapLookup f.images key = none →
      ∀ n, newName gen f ctr key st = some n → mapLookup f.keys n = none) :
    ConsistentMaps f' := by
  cases res with
  | error e =>
    obtain ⟨hkeys, himgs⟩ := serve_error_inv hs
    exact consistentMaps_congr hkeys himgs hinv
  | ok u =>
    obtain ⟨bf, v, bf1, name, hb, hsz, hsz1, hctl, hu, hurl, hb1, hst, hex, hfresh, hkeep,
      hreg⟩ := serve_ok_inv hs
    cases hk : mapLookup f.images key with
    | some img0 =>
      obtain ⟨hkeys, himgs⟩ := hkeep img0 hk
      exact consistentMaps_congr hkeys himgs hinv
    | none =>
      obtain ⟨hkeys, himgs⟩ := hreg hk
      have hfreshname : mapLookup f.keys name = none := by
        apply hnc hk name
        unfold newName
        cases st with
        | true =>
          obtain ⟨hn, -⟩ := hst rfl
          simp [hn]
        | false =>
          obtain ⟨hg, -⟩ := hfresh rfl hk
          simp [hk, hg, Except.toOption]
      obtain ⟨h1, h2⟩ := hinv
      constructor
      · intro k' img' hl
        rw [himgs, mapLookup_insert] at hl
        rw [hkeys, mapLookup_insert]
        by_cases hkk : k' = key
        · rw [if_pos hkk] at hl
          injection hl with hl
          rw [← hl]
          simp [hkk]
        · rw [if_neg hkk] at hl
          have hb' := h1 k' img' hl
          have hne : ¬ img'.name = name := by
            intro hc
            rw [hc, hfreshname] at hb'
            cases hb'
          rw [if_neg hne]
          exact hb'
      · intro n k' hl
        rw [hkeys, mapLookup_insert] at hl
        rw [himgs]
        by_cases hnn : n = name
        · rw [if_pos hnn] at hl
          injection hl with hl
          refine ⟨⟨name, arch, v, ign, inf⟩, ?_, hnn.symm⟩
          rw [mapLookup_insert, if_pos hl.symm]
        · rw [if_neg hnn] at hl
          obtain ⟨img', hi', hni'⟩ := h2 n k' hl
          refine ⟨img', ?_, hni'⟩
          have hne : ¬ k' = key := by
            intro hc
            rw [hc, hk] at hi'
            cases hi'
          rw [mapLookup_insert, if_neg hne]
          exact hi'

/-- C10 (amended): along collision-free histories — no `ServeImage`
registration whose virtual name is already bound in the keys map (fresh minted
names, and no static key equal to an already-registered name of another key) —
every reachable state keeps the two cache maps mutually consistent. -/
theorem cacheMaps_consistent_noCollision {w : World} {gen : Nat → Except GoError String}
    {f : imageFileSystem} {ctr : Nat}
    (h : ReachableNC w gen f ctr) : ConsistentMaps f := by
  induction h with
  | init iso initram burl =>
    constructor
    · intro k img hl
      cases hl
    · intro n k hl
      cases hl
  | serve key arch ign inf st hr hs hnc ih =>
    exact serve_preserves_consistent ih hs hnc
  | remove key hr ih =>
    exact remove_preserves_consistent ih

theorem cacheMaps_consistent_noCollision_witness : ConsistentMaps fsTest :=
  @cacheMaps_consistent_noCollision wTest genTest fsTest 0
    (ReachableNC.init fsTest.isoFiles fsTest.initramfsFiles fsTest.baseURL)

/-- C10 counterexample: the invariant does not survive the mode mix the claim
includes — serving key `k1` ephemerally registers it under minted name
`uuid-0`; a subsequent static call with key `uuid-0` overwrites the keys
binding of `uuid-0`, after which `k1`'s registered image no longer maps back to
`k1`. The collided state is reachable, and the maps are inconsistent there. -/
theorem cacheMaps_collision_cex :
    Reachable wTest genTest fsCollided 1 ∧ ¬ ConsistentMaps fsCollided := by
  constructor
  · exact Reachable.serve "uuid-0" "" [] false true
      (Reachable.serve "k1" "" [1] false false
        (Reachable.init fsTest.isoFiles fsTest.initramfsFiles fsTest.baseURL) rfl) rfl
  · rintro ⟨h1, -⟩
    have h2 := h1 "k1" ⟨"uuid-0", "", 12345, [1], false⟩ (by decide)
    rw [show mapLookup fsCollided.keys "uuid-0" = some "uuid-0" from by decide] at h2
    injection h2 with h2
    exact absurd h2 (by decide)
